import Mathlib

/-!
Verification of the core data pipeline of the Task-Manager clone
(`src/ui/main_window.py` and `src/ui/views/processes_view.py`):

* the stream decoder `_read_backend` (process / GPU frame reassembly),
* the classifier `_classify_process` with its monotonic cache,
* the aggregator `update_data` (grouping by name, summed cpu/mem, detail map,
  periodic cache cleanup),
* the reconciler `_update_rows` (set-difference over `(category, name)` keys),
* the window-pid resolver `update_window_pids`.

Python strings are modelled as Lean `String`; the handful of string
primitives the code uses (`str.strip`, `str.split('|')`, `str.lower`,
`str.startswith`, substring membership) are defined structurally over the
character list so that every definition evaluates by kernel reduction.
Python `float` arithmetic is idealised as exact rational arithmetic `ℚ`.
-/

/-- Python `str.split('|')` on the character list: fields between every
occurrence of the separator, empty fields kept, `[""]` for the empty string. -/
def splitBar : List Char → List (List Char)
  | [] => [[]]
  | c :: rest =>
    match splitBar rest with
    | [] => [[]]
    | f :: fs => if c = '|' then [] :: f :: fs else (c :: f) :: fs

/-- `line.split('|')` from the source, producing the list of fields. -/
def pySplit (s : String) : List String := (splitBar s.data).map String.mk

/-- Python `str.strip()`: drop leading and trailing whitespace. -/
def pyStrip (s : String) : String :=
  ⟨((s.data.dropWhile Char.isWhitespace).reverse.dropWhile Char.isWhitespace).reverse⟩

/-- Python `str.lower()` (ASCII case folding, as used on process names). -/
def pyLower (s : String) : String := ⟨s.data.map Char.toLower⟩

/-- Python `str.startswith(pre)`. -/
def pyStarts (s pre : String) : Bool := pre.data.isPrefixOf s.data

/-- Python `pat in s` substring membership. -/
def isSub (pat : List Char) : List Char → Bool
  | [] => pat.isEmpty
  | c :: rest => pat.isPrefixOf (c :: rest) || isSub pat rest

/-- Python `pat in s` on strings. -/
def pyContains (s pat : String) : Bool := isSub pat.data s.data

/-! ## Stream decoder (`MainWindow._read_backend`)

The reader loop keeps two buffers (`frame`, `gpu_frame`) and the flag
`in_gpu_block`; each stripped line either mutates the buffers or emits a
completed frame via `root.after` (modelled as appending to the emitted list).
-/

/-- The decoder's mutable state: the process-line buffer `frame`, the GPU-line
buffer `gpu_frame` and the `in_gpu_block` flag of `_read_backend`. -/
structure DecState where
  frame : List (List String)
  gpuFrame : List (List String)
  inGpu : Bool
deriving DecidableEq

/-- A completed frame handed downstream: the samples of a process frame are the
6-field splits, the samples of a GPU frame the 9-field splits minus the
leading `GPU` tag (`parts[1:]`). -/
inductive Frame where
  | proc (samples : List (List String))
  | gpu (samples : List (List String))
deriving DecidableEq

/-- Decoder state at the top of `_read_backend`: empty buffers, not in a GPU
block. -/
def initState : DecState := ⟨[], [], false⟩

/-- One iteration of the `_read_backend` loop body on one raw line, returning
the new state and the frames emitted (`[]` or one frame).  The branch order is
the source's: strip; skip blanks; `GPU_START`; `GPU_END`; the GPU-block body;
`END`; the 6-field process-sample check.  Note that `GPU_END` emits the GPU
buffer without clearing it (only `GPU_START` clears it), and `END` clears the
process buffer. -/
def decodeLine (st : DecState) (raw : String) : DecState × List Frame :=
  if pyStrip raw = "" then (st, [])
  else if pyStrip raw = "GPU_START" then ({ st with inGpu := true, gpuFrame := [] }, [])
  else if pyStrip raw = "GPU_END" then
    ({ st with inGpu := false },
      if st.gpuFrame.isEmpty then [] else [Frame.gpu st.gpuFrame])
  else if st.inGpu then
    if pyStarts (pyStrip raw) "GPU|" then
      if (pySplit (pyStrip raw)).length = 9 then
        ({ st with gpuFrame := st.gpuFrame ++ [(pySplit (pyStrip raw)).drop 1] }, [])
      else (st, [])
    else (st, [])
  else if pyStrip raw = "END" then
    if st.frame.isEmpty then (st, [])
    else ({ st with frame := [] }, [Frame.proc st.frame])
  else
    if (pySplit (pyStrip raw)).length = 6 then
      ({ st with frame := st.frame ++ [pySplit (pyStrip raw)] }, [])
    else (st, [])

/-- Run the decoder loop over a list of lines from a given state, returning the
final state and all emitted frames in order. -/
def decodeRun (st : DecState) : List String → DecState × List Frame
  | [] => (st, [])
  | l :: rest =>
    let step := decodeLine st l
    let tail := decodeRun step.1 rest
    (tail.1, step.2 ++ tail.2)

/-- The frames `_read_backend` emits for a whole input stream; at end of
stream the loop simply ends, so whatever is still buffered is discarded. -/
def decode (lines : List String) : List Frame := (decodeRun initState lines).2

lemma decodeRun_cons (st : DecState) (l : String) (rest : List String) :
    decodeRun st (l :: rest) =
      ((decodeRun (decodeLine st l).1 rest).1,
        (decodeLine st l).2 ++ (decodeRun (decodeLine st l).1 rest).2) := rfl

lemma decodeRun_append (xs ys : List String) : ∀ st : DecState,
    decodeRun st (xs ++ ys) =
      ((decodeRun (decodeRun st xs).1 ys).1,
        (decodeRun st xs).2 ++ (decodeRun (decodeRun st xs).1 ys).2) := by
  induction xs with
  | nil => intro st; simp [decodeRun]
  | cons l rest ih =>
    intro st
    simp only [List.cons_append, decodeRun_cons, ih (decodeLine st l).1, List.append_assoc]

/-- A line that strips to neither `END` nor `GPU_END` emits nothing. -/
lemma decodeLine_no_emit (st : DecState) (l : String)
    (hEnd : pyStrip l ≠ "END") (hGpuEnd : pyStrip l ≠ "GPU_END") :
    (decodeLine st l).2 = [] := by
  unfold decodeLine
  split_ifs <;> simp_all

/-- A run of lines none of which strips to `END` or `GPU_END` emits nothing. -/
lemma decodeRun_no_emit (extra : List String)
    (h : ∀ l ∈ extra, pyStrip l ≠ "END" ∧ pyStrip l ≠ "GPU_END") :
    ∀ st : DecState, (decodeRun st extra).2 = [] := by
  induction extra with
  | nil => intro st; rfl
  | cons l rest ih =>
    intro st
    have hl := h l (by simp)
    simp only [decodeRun_cons]
    rw [decodeLine_no_emit st l hl.1 hl.2, ih (fun x hx => h x (by simp [hx]))]
    rfl

/-- C8.  No empty or partial frames: an `END` seen with an empty process buffer
emits no frame and leaves the state unchanged; a `GPU_END` seen with an empty
GPU buffer emits no frame; and at end of stream any lines after the last
`END`/`GPU_END` sentinel contribute nothing to the emitted frames, i.e. samples
buffered since the last sentinel are discarded, never emitted. -/
theorem decoder_no_empty_or_partial_frames :
    (∀ g : List (List String), decodeLine ⟨[], g, false⟩ "END" = (⟨[], g, false⟩, [])) ∧
    (∀ (f : List (List String)) (b : Bool),
      decodeLine ⟨f, [], b⟩ "GPU_END" = (⟨f, [], false⟩, [])) ∧
    (∀ lines extra : List String,
      (∀ l ∈ extra, pyStrip l ≠ "END" ∧ pyStrip l ≠ "GPU_END") →
      decode (lines ++ extra) = decode lines) := by
  refine ⟨fun g => rfl, fun f b => rfl, fun lines extra h => ?_⟩
  unfold decode
  rw [decodeRun_append, decodeRun_no_emit extra h, List.append_nil]

/-- Witness for C8: a trailing process sample with no closing `END` is
discarded — appending it changes nothing. -/
theorem decoder_no_empty_or_partial_frames_witness :
    decode (["1|bash|S|0.5|2048|1", "END"] ++ ["9|zsh|S|2|4096|2"]) =
      decode ["1|bash|S|0.5|2048|1", "END"] :=
  decoder_no_empty_or_partial_frames.2.2
    ["1|bash|S|0.5|2048|1", "END"] ["9|zsh|S|2|4096|2"] (by decide)

/-- Inside a GPU block, any line that does not strip to `GPU_END` emits
nothing, keeps the process buffer, and stays inside the block. -/
lemma decodeLine_inGpu (f g : List (List String)) (l : String)
    (h : pyStrip l ≠ "GPU_END") :
    ∃ g2, decodeLine ⟨f, g, true⟩ l = (⟨f, g2, true⟩, []) := by
  unfold decodeLine
  split_ifs <;> first | exact ⟨_, rfl⟩ | (exact absurd ‹_› h) | simp_all

/-- A run of non-`GPU_END` lines from inside a GPU block emits nothing and
only rewrites the GPU buffer. -/
lemma decodeRun_inGpu (gs : List String)
    (h : ∀ l ∈ gs, pyStrip l ≠ "GPU_END") (f g : List (List String)) :
    ∃ g2, decodeRun ⟨f, g, true⟩ gs = (⟨f, g2, true⟩, []) := by
  induction gs generalizing g with
  | nil => exact ⟨g, rfl⟩
  | cons l rest ih =>
    obtain ⟨g1, h1⟩ := decodeLine_inGpu f g l (h l (by simp))
    obtain ⟨g2, h2⟩ := ih (fun x hx => h x (by simp [hx])) g1
    exact ⟨g2, by simp [decodeRun_cons, h1, h2]⟩

/-- C10.  A `GPU_START` arriving while already inside a GPU block clears the
accumulated GPU buffer, emits nothing and stays inside the block; consequently
every GPU sample received between two `GPU_START` lines (with no intervening
`GPU_END`) is discarded and appears in no emitted frame — the stream decodes
exactly as if those lines were absent. -/
theorem decoder_gpu_start_inside_block_discards :
    (∀ f g : List (List String),
      decodeLine ⟨f, g, true⟩ "GPU_START" = (⟨f, [], true⟩, [])) ∧
    (∀ (st : DecState) (gs rest : List String),
      (∀ l ∈ gs, pyStrip l ≠ "GPU_END") →
      decodeRun st ("GPU_START" :: gs ++ "GPU_START" :: rest) =
        decodeRun st ("GPU_START" :: "GPU_START" :: rest)) := by
  refine ⟨fun f g => rfl, fun st gs rest h => ?_⟩
  have hstart : decodeLine st "GPU_START" = (⟨st.frame, [], true⟩, []) := rfl
  obtain ⟨g2, hg2⟩ := decodeRun_inGpu gs h st.frame []
  have hsplit : ("GPU_START" :: gs ++ "GPU_START" :: rest) =
      ("GPU_START" :: gs) ++ ("GPU_START" :: rest) := by simp
  rw [hsplit, decodeRun_append]
  have hgs : decodeRun st ("GPU_START" :: gs) = (⟨st.frame, g2, true⟩, []) := by
    simp [decodeRun_cons, hstart, hg2]
  rw [hgs]
  have hgpustart : ∀ f g : List (List String),
      decodeLine ⟨f, g, true⟩ "GPU_START" = (⟨f, [], true⟩, []) := fun f g => rfl
  simp only [decodeRun_cons, hstart, hgpustart]

/-- Witness for C10: the GPU sample between two `GPU_START` lines never shows
up in any emitted frame. -/
theorem decoder_gpu_start_inside_block_discards_witness :
    decodeRun initState
        ("GPU_START" :: ["GPU|0|NVIDIA RTX|45|2048|8192|65|120|250"] ++
          "GPU_START" :: ["GPU|1|B|1|2|3|4|5|6", "GPU_END"]) =
      decodeRun initState ("GPU_START" :: "GPU_START" :: ["GPU|1|B|1|2|3|4|5|6", "GPU_END"]) :=
  decoder_gpu_start_inside_block_discards.2 initState
    ["GPU|0|NVIDIA RTX|45|2048|8192|65|120|250"] ["GPU|1|B|1|2|3|4|5|6", "GPU_END"] (by decide)

/-! ## C1: decoder round-trip over well-formed framed input with noise -/

/-- One sentinel-framed block of the wire protocol: process records closed by
`END`, or GPU records between `GPU_START` and `GPU_END`. -/
inductive Block where
  | proc (recs : List String)
  | gpu (recs : List String)

/-- The lines a block puts on the wire. -/
def renderBlock : Block → List String
  | .proc recs => recs ++ ["END"]
  | .gpu recs => "GPU_START" :: (recs ++ ["GPU_END"])

/-- The whole input stream of a sequence of blocks. -/
def render (bs : List Block) : List String := (bs.map renderBlock).flatten

/-- A well-formed process record line: whitespace-stable, non-blank, and
exactly 6 `|`-separated fields (such a line can equal no sentinel, whose
split has a single field). -/
def WfProcLine (l : String) : Prop :=
  pyStrip l = l ∧ l ≠ "" ∧ (pySplit l).length = 6

/-- A well-formed GPU record line: whitespace-stable, `GPU|`-prefixed, and
exactly 9 `|`-separated fields. -/
def WfGpuLine (l : String) : Prop :=
  pyStrip l = l ∧ pyStarts l "GPU|" = true ∧ (pySplit l).length = 9

/-- Every record line of the block is well-formed. -/
def WfBlock : Block → Prop
  | .proc recs => ∀ r ∈ recs, WfProcLine r
  | .gpu recs => ∀ r ∈ recs, WfGpuLine r

/-- The frames the spec expects for one block: its parsed records in order,
nothing at all for a record-less block. -/
def expectedBlock : Block → List Frame
  | .proc recs => if recs.isEmpty then [] else [Frame.proc (recs.map pySplit)]
  | .gpu recs =>
      if recs.isEmpty then [] else [Frame.gpu (recs.map (fun r => (pySplit r).drop 1))]

/-- The frames the spec expects for a whole block sequence. -/
def expectedFrames (bs : List Block) : List Frame := (bs.map expectedBlock).flatten

/-- A malformed-or-blank line: it strips to blank, or it is no sentinel, has
not 6 fields, and is no 9-field `GPU|` line — so the decoder drops it in
either state. -/
def Inert (l : String) : Prop :=
  pyStrip l = "" ∨
    (pyStrip l ≠ "GPU_START" ∧ pyStrip l ≠ "GPU_END" ∧ pyStrip l ≠ "END" ∧
      (pySplit (pyStrip l)).length ≠ 6 ∧
      ¬(pyStarts (pyStrip l) "GPU|" = true ∧ (pySplit (pyStrip l)).length = 9))

instance (l : String) : Decidable (WfProcLine l) :=
  decidable_of_iff (pyStrip l = l ∧ l ≠ "" ∧ (pySplit l).length = 6) Iff.rfl

instance (l : String) : Decidable (WfGpuLine l) :=
  decidable_of_iff (pyStrip l = l ∧ pyStarts l "GPU|" = true ∧ (pySplit l).length = 9) Iff.rfl

instance : (b : Block) → Decidable (WfBlock b)
  | .proc recs => inferInstanceAs (Decidable (∀ r ∈ recs, WfProcLine r))
  | .gpu recs => inferInstanceAs (Decidable (∀ r ∈ recs, WfGpuLine r))

instance (l : String) : Decidable (Inert l) :=
  decidable_of_iff
    (pyStrip l = "" ∨
      (pyStrip l ≠ "GPU_START" ∧ pyStrip l ≠ "GPU_END" ∧ pyStrip l ≠ "END" ∧
        (pySplit (pyStrip l)).length ≠ 6 ∧
        ¬(pyStarts (pyStrip l) "GPU|" = true ∧ (pySplit (pyStrip l)).length = 9))) Iff.rfl

/-- `Noisy xs ys`: `ys` is `xs` with malformed or blank lines inserted
anywhere. -/
inductive Noisy : List String → List String → Prop where
  | nil : Noisy [] []
  | keep {xs ys : List String} {x : String} : Noisy xs ys → Noisy (x :: xs) (x :: ys)
  | noise {xs ys : List String} {n : String} : Inert n → Noisy xs ys → Noisy xs (n :: ys)

/-- An inert line is dropped: no state change, no emission, in either state. -/
lemma decodeLine_inert (st : DecState) (l : String) (h : Inert l) :
    decodeLine st l = (st, []) := by
  obtain hb | ⟨hgs, hge, hend, h6, h9⟩ := h
  · simp [decodeLine, hb]
  · unfold decodeLine
    split_ifs <;> simp_all

/-- Inserting inert lines changes neither the decoder's final state nor its
emitted frames. -/
lemma decodeRun_noisy {xs ys : List String} (h : Noisy xs ys) :
    ∀ st : DecState, decodeRun st ys = decodeRun st xs := by
  induction h with
  | nil => intro st; rfl
  | keep _ ih => intro st; simp only [decodeRun_cons, ih]
  | noise hn _ ih =>
    intro st
    simp only [decodeRun_cons, decodeLine_inert st _ hn, ih]
    rfl

/-- A well-formed process record in `NORMAL` state is appended to the process
buffer. -/
lemma decodeLine_procRec (f g : List (List String)) (r : String) (h : WfProcLine r) :
    decodeLine ⟨f, g, false⟩ r = (⟨f ++ [pySplit r], g, false⟩, []) := by
  obtain ⟨hstrip, hne, hlen⟩ := h
  have hgs : r ≠ "GPU_START" := fun e => absurd (e ▸ hlen) (by decide)
  have hge : r ≠ "GPU_END" := fun e => absurd (e ▸ hlen) (by decide)
  have hend : r ≠ "END" := fun e => absurd (e ▸ hlen) (by decide)
  unfold decodeLine
  rw [hstrip]
  simp [hne, hgs, hge, hend, hlen]

/-- A run of well-formed process records accumulates their splits in order. -/
lemma decodeRun_procRecs (recs : List String) (h : ∀ r ∈ recs, WfProcLine r) :
    ∀ f g : List (List String),
      decodeRun ⟨f, g, false⟩ recs = (⟨f ++ recs.map pySplit, g, false⟩, []) := by
  induction recs with
  | nil => intro f g; simp [decodeRun]
  | cons r rest ih =>
    intro f g
    rw [decodeRun_cons, decodeLine_procRec f g r (h r (by simp))]
    simp [ih (fun x hx => h x (by simp [hx]))]

/-- A well-formed GPU record inside a GPU block is appended (minus its `GPU`
tag) to the GPU buffer. -/
lemma decodeLine_gpuRec (f g : List (List String)) (r : String) (h : WfGpuLine r) :
    decodeLine ⟨f, g, true⟩ r = (⟨f, g ++ [(pySplit r).drop 1], true⟩, []) := by
  obtain ⟨hstrip, hpre, hlen⟩ := h
  have hne : r ≠ "" := fun e => absurd (e ▸ hpre) (by decide)
  have hgs : r ≠ "GPU_START" := fun e => absurd (e ▸ hpre) (by decide)
  have hge : r ≠ "GPU_END" := fun e => absurd (e ▸ hpre) (by decide)
  unfold decodeLine
  rw [hstrip]
  simp [hne, hgs, hge, hpre, hlen]

/-- A run of well-formed GPU records accumulates their tag-stripped splits in
order. -/
lemma decodeRun_gpuRecs (recs : List String) (h : ∀ r ∈ recs, WfGpuLine r) :
    ∀ f g : List (List String),
      decodeRun ⟨f, g, true⟩ recs =
        (⟨f, g ++ recs.map (fun r => (pySplit r).drop 1), true⟩, []) := by
  induction recs with
  | nil => intro f g; simp [decodeRun]
  | cons r rest ih =>
    intro f g
    rw [decodeRun_cons, decodeLine_gpuRec f g r (h r (by simp))]
    simp [ih (fun x hx => h x (by simp [hx]))]

/-- One well-formed block decoded from an idle state emits exactly its
expected frames and returns to an idle state (the leftover GPU buffer is
irrelevant: `GPU_END` does not clear it, only `GPU_START` does). -/
lemma decodeRun_block (b : Block) (hb : WfBlock b) (g : List (List String)) :
    ∃ g2, decodeRun ⟨[], g, false⟩ (renderBlock b) = (⟨[], g2, false⟩, expectedBlock b) := by
  cases b with
  | proc recs =>
    refine ⟨g, ?_⟩
    rw [renderBlock, decodeRun_append, decodeRun_procRecs recs hb]
    cases recs with
    | nil => rfl
    | cons r rest => rfl
  | gpu recs =>
    refine ⟨recs.map (fun r => (pySplit r).drop 1), ?_⟩
    have h1 : decodeLine ⟨[], g, false⟩ "GPU_START" = (⟨[], [], true⟩, []) := rfl
    rw [renderBlock, decodeRun_cons, h1, decodeRun_append, decodeRun_gpuRecs recs hb]
    cases hrec : recs with
    | nil => rfl
    | cons r rest =>
      simp only [expectedBlock, List.nil_append, List.isEmpty_cons]
      have h2 : ∀ m : List (List String), m ≠ [] →
          decodeRun ⟨[], m, true⟩ ["GPU_END"] = (⟨[], m, false⟩, [Frame.gpu m]) := by
        intro m hm
        have hne : m.isEmpty = false := by simpa using hm
        have hline : decodeLine ⟨[], m, true⟩ "GPU_END" = (⟨[], m, false⟩, [Frame.gpu m]) := by
          unfold decodeLine
          rw [if_neg (by decide), if_neg (by decide), if_pos rfl]
          simp [hne]
          intro hcontra
          exact absurd rfl hcontra
        simp [decodeRun, hline]
      rw [h2 _ (by simp)]
      simp

/-- A well-formed block sequence decodes, from the initial state with any
leftover GPU buffer, to exactly its expected frames. -/
lemma decodeRun_render (bs : List Block) (h : ∀ b ∈ bs, WfBlock b) :
    ∀ g : List (List String), ∃ g2,
      decodeRun ⟨[], g, false⟩ (render bs) = (⟨[], g2, false⟩, expectedFrames bs) := by
  induction bs with
  | nil => intro g; exact ⟨g, rfl⟩
  | cons b rest ih =>
    intro g
    obtain ⟨g2, h2⟩ := decodeRun_block b (h b (by simp)) g
    obtain ⟨g3, h3⟩ := ih (fun x hx => h x (by simp [hx])) g2
    refine ⟨g3, ?_⟩
    have hr : render (b :: rest) = renderBlock b ++ render rest := by
      simp [render]
    rw [hr, decodeRun_append, h2, h3]
    simp [expectedFrames]

/-- C1.  Decoder round-trip: for every interleaving of well-formed process and
GPU records framed by their sentinels, with malformed or blank lines inserted
anywhere, the decoder emits exactly the frames whose samples are the parsed
records in original per-line order — the noise lines have no effect. -/
theorem decoder_roundtrip (bs : List Block) (ys : List String)
    (hwf : ∀ b ∈ bs, WfBlock b) (hnoise : Noisy (render bs) ys) :
    decode ys = expectedFrames bs := by
  obtain ⟨g2, h2⟩ := decodeRun_render bs hwf []
  unfold decode initState
  rw [decodeRun_noisy hnoise, h2]

/-- Witness for C1: a process block and a GPU block with a malformed line and
a blank line inserted decode to exactly the two expected frames. -/
theorem decoder_roundtrip_witness :
    decode ["abc", "123|bash|S|0.5|2048|1", "END", "",
        "GPU_START", "GPU|0|NVIDIA RTX|45|2048|8192|65|120|250", "GPU_END"] =
      expectedFrames [Block.proc ["123|bash|S|0.5|2048|1"],
        Block.gpu ["GPU|0|NVIDIA RTX|45|2048|8192|65|120|250"]] :=
  decoder_roundtrip
    [Block.proc ["123|bash|S|0.5|2048|1"],
      Block.gpu ["GPU|0|NVIDIA RTX|45|2048|8192|65|120|250"]]
    ["abc", "123|bash|S|0.5|2048|1", "END", "",
      "GPU_START", "GPU|0|NVIDIA RTX|45|2048|8192|65|120|250", "GPU_END"]
    (by decide)
    (Noisy.noise (by decide)
      (Noisy.keep (Noisy.keep (Noisy.noise (by decide)
        (Noisy.keep (Noisy.keep (Noisy.keep Noisy.nil)))))))

/-! ## Classifier (`ProcessesView._classify_process`) and its tables -/

/-- `APP_PATTERNS` from `processes_view.py`: substring patterns of well-known
interactive applications. -/
def APP_PATTERNS : List String :=
  ["chrome", "firefox", "brave", "edge", "opera", "vivaldi", "chromium",
   "code", "visual studio", "pycharm", "intellij", "eclipse", "sublime",
   "atom", "cursor", "gedit", "kate", "neovim", "vim",
   "slack", "discord", "teams", "zoom", "skype", "telegram", "signal",
   "spotify", "vlc", "mpv", "rhythmbox", "clementine", "audacity",
   "gimp", "inkscape", "blender", "krita", "darktable",
   "libreoffice", "writer", "calc", "impress",
   "dolphin", "nautilus", "thunar", "nemo", "pcmanfm",
   "konsole", "gnome-terminal", "tilix", "alacritty", "kitty", "wezterm",
   "thunderbird", "evolution", "geary",
   "docker", "postman", "insomnia", "dbeaver",
   "obs", "kdenlive", "handbrake", "shotcut"]

/-- `BLACKLIST` from `processes_view.py`: exact names of background daemons. -/
def BLACKLIST : List String :=
  ["systemd", "dbus-daemon", "systemd-resolved", "systemd-timesyncd",
   "systemd-logind", "systemd-journald", "systemd-udevd",
   "xorg", "xwayland", "kwin_x11", "kwin_wayland",
   "mutter", "gnome-shell", "plasmashell",
   "pulseaudio", "pipewire", "pipewire-pulse", "wireplumber",
   "kded5", "kded6", "ksmserver", "kglobalaccel5",
   "gvfsd", "gvfsd-fuse", "gvfsd-metadata",
   "at-spi-bus-launcher", "at-spi2-registryd",
   "ibus-daemon", "ibus-portal", "fcitx5",
   "xdg-desktop-portal", "xdg-desktop-portal-gtk", "xdg-desktop-portal-kde",
   "polkit-kde-authentication-agent-1", "polkitd",
   "chrome_crashpad_handler", "crashpad_handler"]

/-- `PARENT_BLACKLIST` from `processes_view.py`: exact names of shells and
interpreters counted as background. -/
def PARENT_BLACKLIST : List String :=
  ["bash", "zsh", "sh", "fish", "dash", "ksh",
   "bwrap", "snap-confine", "firejail",
   "python", "python3", "python2", "perl", "ruby", "node",
   "systemd", "init"]

/-- The inline helper-process token list of `_classify_process`. -/
def HELPER_TOKENS : List String := ["crashpad", "helper", "zygote", "nacl_helper"]

/-- A Python dict as an insertion-ordered association list: lookup. -/
def dictGet {α β : Type} [DecidableEq α] (k : α) : List (α × β) → Option β
  | [] => none
  | (k2, v) :: rest => if k2 = k then some v else dictGet k rest

/-- A Python dict as an insertion-ordered association list: `d[k] = v`
(replace in place, else append). -/
def dictSet {α β : Type} [DecidableEq α] (k : α) (v : β) : List (α × β) → List (α × β)
  | [] => [(k, v)]
  | (k2, v2) :: rest => if k2 = k then (k2, v) :: rest else (k2, v2) :: dictSet k v rest

lemma dictGet_dictSet {α β : Type} [DecidableEq α] (k k2 : α) (v : β)
    (d : List (α × β)) :
    dictGet k2 (dictSet k v d) = if k2 = k then some v else dictGet k2 d := by
  induction d with
  | nil =>
    by_cases h : k2 = k
    · simp_all [dictGet, dictSet]
    · simp_all [dictGet, dictSet]
      exact fun e => h e.symm
  | cons e rest ih =>
    obtain ⟨k3, v3⟩ := e
    by_cases h3 : k3 = k <;> by_cases h2 : k3 = k2 <;> by_cases h1 : k2 = k <;>
      simp_all [dictGet, dictSet]

/-- `self.classification_cache`: pid → cached classification. -/
abbrev Cache := List (ℤ × Bool)

/-- `_classify_process(pid, name)`: returns the classification and the updated
cache.  Faithful to the source's first-match-wins order: cache hit (with the
false-to-true window upgrade), exact blacklist match on the lower-cased name,
helper-token substring match, window ownership, app-pattern substring match.
In the source the final owning-uid step returns and caches `False` on every
path (uid differs, process vanished, or same uid falling through), so it is
one default-false branch here. -/
def classify (windowPids : Finset ℤ) (cache : Cache) (pid : ℤ) (name : String) :
    Bool × Cache :=
  match dictGet pid cache with
  | some cached =>
      if cached = false ∧ pid ∈ windowPids then (true, dictSet pid true cache)
      else (cached, cache)
  | none =>
      if BLACKLIST.contains (pyLower name) || PARENT_BLACKLIST.contains (pyLower name) then
        (false, dictSet pid false cache)
      else if HELPER_TOKENS.any (fun t => pyContains (pyLower name) t) then
        (false, dictSet pid false cache)
      else if pid ∈ windowPids then
        (true, dictSet pid true cache)
      else if APP_PATTERNS.any (fun t => pyContains (pyLower name) t) then
        (true, dictSet pid true cache)
      else
        (false, dictSet pid false cache)

/-! ## Aggregator (`ProcessesView.update_data`) -/

/-- One process sample, the 6-field record after `update_data`'s conversions
`int(pid)`, `float(cpu)`, `int(mem)`; float arithmetic idealised as `ℚ`. -/
structure Sample where
  pid : ℤ
  name : String
  state : String
  cpu : ℚ
  memKb : ℤ
  threads : ℤ
deriving DecidableEq

/-- One `(category, name)` group as built by `update_data`: pid list, summed
cpu, summed mem (MiB), the state of the first sample, and the per-pid detail
dict `details[pid] = (cpu, mem)`. -/
structure GroupInfo where
  pids : List ℤ
  cpu : ℚ
  mem : ℚ
  state : String
  details : List (ℤ × ℚ × ℚ)
deriving DecidableEq

/-- A `name → GroupInfo` Python dict. -/
abbrev Groups := List (String × GroupInfo)

/-- The group update of `update_data`'s loop body: create the empty group on
first sight (remembering this sample's state), append the pid, add `cpu` and
`mem/1024` to the running sums and overwrite `details[pid]`. -/
def newInfo (old : Option GroupInfo) (s : Sample) : GroupInfo :=
  let memMb : ℚ := (s.memKb : ℚ) / 1024
  let info := old.getD ⟨[], 0, 0, s.state, []⟩
  ⟨info.pids ++ [s.pid], info.cpu + s.cpu, info.mem + memMb, info.state,
    dictSet s.pid (s.cpu, memMb) info.details⟩

/-- The aggregation loop of `update_data`: for each sample, classify its pid,
pick the `apps` or `background` dict and update that name's group. -/
def aggFold (windowPids : Finset ℤ) :
    List Sample → Cache → Groups → Groups → Cache × Groups × Groups
  | [], cache, apps, background => (cache, apps, background)
  | s :: rest, cache, apps, background =>
    let step := classify windowPids cache s.pid s.name
    if step.1 then
      aggFold windowPids rest step.2
        (dictSet s.name (newInfo (dictGet s.name apps) s) apps) background
    else
      aggFold windowPids rest step.2 apps
        (dictSet s.name (newInfo (dictGet s.name background) s) background)

/-- The classifier-owned state that survives across `update_data` cycles: the
cleanup counter and the classification cache. -/
structure AggState where
  counter : ℕ
  cache : Cache
deriving DecidableEq

/-- What one `update_data` cycle produces. -/
structure AggResult where
  state : AggState
  apps : Groups
  background : Groups
deriving DecidableEq

/-- The periodic cache cleanup at the top of `update_data`: every 30th cycle
the counter resets and cache entries whose pid is absent from the current
frame are purged. -/
def cleanupCache (counter : ℕ) (cache : Cache) (data : List Sample) : ℕ × Cache :=
  if counter + 1 ≥ 30 then
    (0, cache.filter (fun e => (data.map Sample.pid).contains e.1))
  else (counter + 1, cache)

/-- `update_data(data)`: periodic cache cleanup, then the aggregation fold
over the frame's samples starting from empty `apps` and `background` dicts. -/
def updateData (windowPids : Finset ℤ) (st : AggState) (data : List Sample) :
    AggResult :=
  let cc := cleanupCache st.counter st.cache data
  let r := aggFold windowPids data cc.2 [] []
  ⟨⟨cc.1, r.1⟩, r.2.1, r.2.2⟩

/-- The per-sample classification decisions of one aggregation cycle, in
frame order, threading the cache exactly as the fold does. -/
def classifyTrace (windowPids : Finset ℤ) : Cache → List Sample → List (Bool × Sample)
  | _, [] => []
  | cache, s :: rest =>
    let step := classify windowPids cache s.pid s.name
    (step.1, s) :: classifyTrace windowPids step.2 rest


/-! ## C6: blacklist beats window ownership on a cache miss -/

/-- On a cache miss, `classify` is the first-match-wins if-chain of
`_classify_process`. -/
lemma classify_of_miss (windowPids : Finset ℤ) (cache : Cache) (pid : ℤ)
    (name : String) (h : dictGet pid cache = none) :
    classify windowPids cache pid name =
      (if (BLACKLIST.contains (pyLower name) ||
            PARENT_BLACKLIST.contains (pyLower name)) = true then
        (false, dictSet pid false cache)
      else if (HELPER_TOKENS.any fun t => pyContains (pyLower name) t) = true then
        (false, dictSet pid false cache)
      else if pid ∈ windowPids then
        (true, dictSet pid true cache)
      else if (APP_PATTERNS.any fun t => pyContains (pyLower name) t) = true then
        (true, dictSet pid true cache)
      else
        (false, dictSet pid false cache)) := by
  unfold classify
  rw [h]

/-- On a cache hit, `classify` only checks the false-to-true window upgrade. -/
lemma classify_of_hit (windowPids : Finset ℤ) (cache : Cache) (pid : ℤ)
    (name : String) (b : Bool) (h : dictGet pid cache = some b) :
    classify windowPids cache pid name =
      (if b = false ∧ pid ∈ windowPids then (true, dictSet pid true cache)
        else (b, cache)) := by
  unfold classify
  rw [h]

/-- C6.  For a pid with no cache entry whose lower-cased name is an exact
member of the static background blacklists, `classify` returns `false` and
caches `false` — for every `WindowPidSet`, including ones containing the pid:
the blacklist step precedes the window-ownership step. -/
theorem classifier_blacklist_precedence (windowPids : Finset ℤ) (cache : Cache)
    (pid : ℤ) (name : String)
    (hmiss : dictGet pid cache = none)
    (hbl : (BLACKLIST.contains (pyLower name) ||
      PARENT_BLACKLIST.contains (pyLower name)) = true) :
    classify windowPids cache pid name = (false, dictSet pid false cache) := by
  rw [classify_of_miss windowPids cache pid name hmiss, if_pos hbl]

/-- Witness for C6: `Xorg` (blacklisted after lower-casing) is classified
background even though its pid 5 owns a window. -/
theorem classifier_blacklist_precedence_witness :
    dictGet (5 : ℤ) ([] : Cache) = none ∧
    (BLACKLIST.contains (pyLower "Xorg") ||
      PARENT_BLACKLIST.contains (pyLower "Xorg")) = true ∧
    (5 : ℤ) ∈ ({5} : Finset ℤ) ∧
    classify {5} [] 5 "Xorg" = (false, dictSet 5 false []) :=
  ⟨rfl, by decide, by decide,
    classifier_blacklist_precedence {5} [] 5 "Xorg" rfl (by decide)⟩

/-! ## C4: classification monotonicity and the cleanup purge -/

/-- A pid cached `true` classifies `true` and leaves the cache untouched, for
any window set and any name. -/
lemma classify_cached_true (windowPids : Finset ℤ) (cache : Cache) (pid : ℤ)
    (name : String) (h : dictGet pid cache = some true) :
    classify windowPids cache pid name = (true, cache) := by
  rw [classify_of_hit windowPids cache pid name true h]
  simp

/-- Whenever `classify` answers `true`, the returned cache stores `true` for
that pid. -/
lemma classify_true_caches (windowPids : Finset ℤ) (cache : Cache) (pid : ℤ)
    (name : String) (h : (classify windowPids cache pid name).1 = true) :
    dictGet pid (classify windowPids cache pid name).2 = some true := by
  cases hc : dictGet pid cache with
  | some cached =>
    rw [classify_of_hit windowPids cache pid name cached hc] at h ⊢
    by_cases hcc : cached = false ∧ pid ∈ windowPids
    · rw [if_pos hcc] at h ⊢
      simp [dictGet_dictSet]
    · rw [if_neg hcc] at h ⊢
      simp only at h
      rw [hc, h]
  | none =>
    rw [classify_of_miss windowPids cache pid name hc] at h ⊢
    split_ifs at h ⊢ <;> simp_all [dictGet_dictSet]

/-- C4 (amended).  Once `classify` returns `true` for a pid, the cache records
`true` for it, and every subsequent call for that pid through the returned
cache returns `true` with the cache unchanged — for any later `WindowPidSet`
(in particular one no longer containing the pid) and any name — as long as no
intervening cache cleanup has purged the pid's entry. -/
theorem classification_monotonic_until_purge (wp wp2 : Finset ℤ) (cache : Cache)
    (pid : ℤ) (name name2 : String)
    (h : (classify wp cache pid name).1 = true) :
    classify wp2 (classify wp cache pid name).2 pid name2 =
      (true, (classify wp cache pid name).2) :=
  classify_cached_true wp2 _ pid name2 (classify_true_caches wp cache pid name h)

/-- Witness for the amended C4: pid 1 named `chrome` classifies `true` (app
pattern), and the immediately following call with an empty window set and an
unknown name still returns `true`. -/
theorem classification_monotonic_until_purge_witness :
    (classify ∅ [] 1 "chrome").1 = true ∧
    classify ∅ (classify ∅ [] 1 "chrome").2 1 "x" = (true, (classify ∅ [] 1 "chrome").2) :=
  ⟨by decide, classification_monotonic_until_purge ∅ ∅ [] 1 "chrome" "x" (by decide)⟩

/-- The cache after pid 1 (`chrome`) has been classified `true` once. -/
def purgeScenarioCache : Cache := (classify ∅ [] 1 "chrome").2

/-- One aggregation cycle on a frame that does not contain pid 1. -/
def purgeScenarioStep (st : AggState) : AggState :=
  (updateData ∅ st [⟨2, "x", "S", 0, 0, 1⟩]).state

/-- The classifier state after 30 such cycles: the 30th cycle's periodic
cleanup purges pid 1 from the cache. -/
def purgeScenarioState : AggState := purgeScenarioStep^[30] ⟨0, purgeScenarioCache⟩

set_option maxRecDepth 100000 in
/-- Counterexample to C4 as stated: `classify` returns `true` for pid 1, but
after 30 intervening aggregation cycles whose frames lack pid 1 the periodic
cache cleanup has purged the entry, and the next `classify` call for pid 1
(window set empty, name matching no pattern) returns `false`. -/
theorem classification_monotonicity_counterexample :
    (classify ∅ [] 1 "chrome").1 = true ∧
    (classify ∅ purgeScenarioState.cache 1 "x").1 = false := by
  constructor
  · decide
  · decide

/-! ## C7: one name split across both categories in one frame -/

/-- C7.  A frame with two same-named samples, pid 1 owning a window and pid 2
not, aggregates into both an `apps` group and a `background` group named
`foo`, with pid 1 only in the former's pid list and pid 2 only in the
latter's. -/
theorem same_name_split_across_categories :
    (dictGet "foo" (updateData {1} ⟨0, []⟩
        [⟨1, "foo", "S", 1, 1024, 1⟩, ⟨2, "foo", "S", 2, 2048, 1⟩]).apps).map
      GroupInfo.pids = some [1] ∧
    (dictGet "foo" (updateData {1} ⟨0, []⟩
        [⟨1, "foo", "S", 1, 1024, 1⟩, ⟨2, "foo", "S", 2, 2048, 1⟩]).background).map
      GroupInfo.pids = some [2] := by
  constructor
  · rfl
  · rfl

/-! ## C3: aggregation sum law -/

/-- The decisions of a trace that landed in category `cat` under name
`name`. -/
def traceFilter (cat : Bool) (name : String) (t : List (Bool × Sample)) :
    List (Bool × Sample) :=
  t.filter (fun d => d.1 == cat && d.2.name == name)

/-- Sum of the cpu values of a trace's samples. -/
def cpuSum (t : List (Bool × Sample)) : ℚ := (t.map (fun d => d.2.cpu)).sum

/-- Sum of the `mem_kb / 1024` values of a trace's samples. -/
def memSum (t : List (Bool × Sample)) : ℚ :=
  (t.map (fun d => (d.2.memKb : ℚ) / 1024)).sum

/-- The groups dict `g` accounts exactly for the category-`cat` decisions of
the trace `t`: absent names received no sample, and every group's sums are
the sums over the samples its key received. -/
def GroupsMatch (cat : Bool) (t : List (Bool × Sample)) (g : Groups) : Prop :=
  ∀ name : String,
    (dictGet name g = none → traceFilter cat name t = []) ∧
    ∀ info : GroupInfo, dictGet name g = some info →
      info.cpu = cpuSum (traceFilter cat name t) ∧
      info.mem = memSum (traceFilter cat name t)

lemma traceFilter_append (cat : Bool) (name : String) (t1 t2 : List (Bool × Sample)) :
    traceFilter cat name (t1 ++ t2) = traceFilter cat name t1 ++ traceFilter cat name t2 := by
  simp [traceFilter]

lemma traceFilter_single_hit (cat : Bool) (s : Sample) :
    traceFilter cat s.name [(cat, s)] = [(cat, s)] := by
  simp [traceFilter]

lemma traceFilter_single_name (cat c2 : Bool) (name : String) (s : Sample)
    (h : s.name ≠ name) : traceFilter cat name [(c2, s)] = [] := by
  simp [traceFilter, h]

lemma traceFilter_single_cat (cat c2 : Bool) (name : String) (s : Sample)
    (h : c2 ≠ cat) : traceFilter cat name [(c2, s)] = [] := by
  simp [traceFilter, h]

lemma cpuSum_append (t1 t2 : List (Bool × Sample)) :
    cpuSum (t1 ++ t2) = cpuSum t1 + cpuSum t2 := by
  simp [cpuSum]

lemma memSum_append (t1 t2 : List (Bool × Sample)) :
    memSum (t1 ++ t2) = memSum t1 + memSum t2 := by
  simp [memSum]

/-- Updating the category-`cat` dict with a category-`cat` decision preserves
the accounting. -/
lemma groupsMatch_update (cat : Bool) (t : List (Bool × Sample)) (g : Groups)
    (s : Sample) (h : GroupsMatch cat t g) :
    GroupsMatch cat (t ++ [(cat, s)])
      (dictSet s.name (newInfo (dictGet s.name g) s) g) := by
  intro name
  constructor
  · intro hnone
    rw [dictGet_dictSet] at hnone
    by_cases he : name = s.name
    · rw [if_pos he] at hnone
      exact absurd hnone (by simp)
    · rw [if_neg he] at hnone
      rw [traceFilter_append, (h name).1 hnone,
        traceFilter_single_name cat cat name s (fun e => he (e.symm))]
      rfl
  · intro info hinfo
    rw [dictGet_dictSet] at hinfo
    by_cases he : name = s.name
    · subst he
      rw [if_pos rfl] at hinfo
      have hinfo2 : newInfo (dictGet s.name g) s = info := by
        injection hinfo
      subst hinfo2
      rw [traceFilter_append, traceFilter_single_hit, cpuSum_append, memSum_append]
      cases hdg : dictGet s.name g with
      | none =>
        rw [(h s.name).1 hdg]
        simp [newInfo, hdg, cpuSum, memSum]
      | some old =>
        obtain ⟨hcpu, hmem⟩ := (h s.name).2 old hdg
        simp [newInfo, hdg, cpuSum, memSum, hcpu, hmem]
    · rw [if_neg he] at hinfo
      obtain ⟨hcpu, hmem⟩ := (h name).2 info hinfo
      rw [traceFilter_append, traceFilter_single_name cat cat name s (fun e => he (e.symm)),
        List.append_nil]
      exact ⟨hcpu, hmem⟩

/-- A decision of the other category leaves the accounting of this category's
dict untouched. -/
lemma groupsMatch_other (cat c2 : Bool) (hne : c2 ≠ cat)
    (t : List (Bool × Sample)) (g : Groups) (s : Sample)
    (h : GroupsMatch cat t g) : GroupsMatch cat (t ++ [(c2, s)]) g := by
  intro name
  constructor
  · intro hnone
    rw [traceFilter_append, (h name).1 hnone, traceFilter_single_cat cat c2 name s hne]
    rfl
  · intro info hinfo
    obtain ⟨hcpu, hmem⟩ := (h name).2 info hinfo
    rw [traceFilter_append, traceFilter_single_cat cat c2 name s hne, List.append_nil]
    exact ⟨hcpu, hmem⟩

lemma aggFold_cons (wp : Finset ℤ) (s : Sample) (rest : List Sample)
    (cache : Cache) (apps background : Groups) :
    aggFold wp (s :: rest) cache apps background =
      if (classify wp cache s.pid s.name).1 then
        aggFold wp rest (classify wp cache s.pid s.name).2
          (dictSet s.name (newInfo (dictGet s.name apps) s) apps) background
      else
        aggFold wp rest (classify wp cache s.pid s.name).2 apps
          (dictSet s.name (newInfo (dictGet s.name background) s) background) := rfl

lemma classifyTrace_cons (wp : Finset ℤ) (cache : Cache) (s : Sample)
    (rest : List Sample) :
    classifyTrace wp cache (s :: rest) =
      ((classify wp cache s.pid s.name).1, s) ::
        classifyTrace wp (classify wp cache s.pid s.name).2 rest := rfl

/-- Master invariant: the aggregation fold extends the accounting of both
dicts by this frame's classification trace. -/
lemma aggFold_groupsMatch (wp : Finset ℤ) (data : List Sample) :
    ∀ (cache : Cache) (apps background : Groups) (t : List (Bool × Sample)),
      GroupsMatch true t apps → GroupsMatch false t background →
      GroupsMatch true (t ++ classifyTrace wp cache data)
          (aggFold wp data cache apps background).2.1 ∧
        GroupsMatch false (t ++ classifyTrace wp cache data)
          (aggFold wp data cache apps background).2.2 := by
  induction data with
  | nil =>
    intro cache a b t ha hb
    simp only [aggFold, classifyTrace, List.append_nil]
    exact ⟨ha, hb⟩
  | cons s rest ih =>
    intro cache a b t ha hb
    rw [aggFold_cons, classifyTrace_cons]
    have hassoc : ∀ (d : Bool) (L : List (Bool × Sample)),
        t ++ ((d, s) :: L) = (t ++ [(d, s)]) ++ L := by
      intro d L; simp
    cases hc : (classify wp cache s.pid s.name).1 with
    | true =>
      rw [if_pos rfl]
      rw [hassoc]
      exact ih (classify wp cache s.pid s.name).2 _ b (t ++ [(true, s)])
        (groupsMatch_update true t a s ha)
        (groupsMatch_other false true (by decide) t b s hb)
    | false =>
      rw [if_neg Bool.false_ne_true]
      rw [hassoc]
      exact ih (classify wp cache s.pid s.name).2 a _ (t ++ [(false, s)])
        (groupsMatch_other true false (by decide) t a s ha)
        (groupsMatch_update false t b s hb)

/-- Empty dicts account for the empty trace. -/
lemma groupsMatch_nil (cat : Bool) : GroupsMatch cat [] [] := by
  intro name
  constructor
  · intro _; rfl
  · intro info hinfo
    exact absurd hinfo (by simp [dictGet])

/-- C3.  Aggregation sum law: in each frame, for every `(category, name)` key
present after aggregation, the group's `cpu_percent` is the exact sum of the
`cpu_percent` of the samples classified into that key, and its `mem_mb` the
sum of their `mem_kb / 1024` — where the samples a key received are read off
the frame's classification trace (taken from the post-cleanup cache, exactly
as `update_data` threads it). -/
theorem aggregation_sum_law (wp : Finset ℤ) (st : AggState) (data : List Sample)
    (name : String) (info : GroupInfo) :
    (dictGet name (updateData wp st data).apps = some info →
      info.cpu = cpuSum (traceFilter true name
        (classifyTrace wp (cleanupCache st.counter st.cache data).2 data)) ∧
      info.mem = memSum (traceFilter true name
        (classifyTrace wp (cleanupCache st.counter st.cache data).2 data))) ∧
    (dictGet name (updateData wp st data).background = some info →
      info.cpu = cpuSum (traceFilter false name
        (classifyTrace wp (cleanupCache st.counter st.cache data).2 data)) ∧
      info.mem = memSum (traceFilter false name
        (classifyTrace wp (cleanupCache st.counter st.cache data).2 data))) := by
  obtain ⟨h1, h2⟩ := aggFold_groupsMatch wp data
    (cleanupCache st.counter st.cache data).2 [] [] []
    (groupsMatch_nil true) (groupsMatch_nil false)
  rw [List.nil_append] at h1 h2
  exact ⟨(h1 name).2 info, (h2 name).2 info⟩

/-- Witness for C3: two background samples named `foo` (cpu 1 and 2, mem 1024
and 2048 KB) yield one group whose sums are exactly the per-sample sums. -/
theorem aggregation_sum_law_witness :
    dictGet "foo" (updateData ∅ ⟨0, []⟩
        [⟨1, "foo", "S", 1, 1024, 1⟩, ⟨2, "foo", "S", 2, 2048, 1⟩]).background =
      some ⟨[1, 2], 0 + 1 + 2, 0 + ((1024 : ℤ) : ℚ) / 1024 + ((2048 : ℤ) : ℚ) / 1024, "S",
        [(1, 1, ((1024 : ℤ) : ℚ) / 1024), (2, 2, ((2048 : ℤ) : ℚ) / 1024)]⟩ ∧
    (GroupInfo.cpu ⟨[1, 2], 0 + 1 + 2, 0 + ((1024 : ℤ) : ℚ) / 1024 + ((2048 : ℤ) : ℚ) / 1024, "S",
        [(1, 1, ((1024 : ℤ) : ℚ) / 1024), (2, 2, ((2048 : ℤ) : ℚ) / 1024)]⟩ =
      cpuSum (traceFilter false "foo" (classifyTrace ∅ (cleanupCache 0 []
        [⟨1, "foo", "S", 1, 1024, 1⟩, ⟨2, "foo", "S", 2, 2048, 1⟩]).2
        [⟨1, "foo", "S", 1, 1024, 1⟩, ⟨2, "foo", "S", 2, 2048, 1⟩])) ∧
     GroupInfo.mem ⟨[1, 2], 0 + 1 + 2, 0 + ((1024 : ℤ) : ℚ) / 1024 + ((2048 : ℤ) : ℚ) / 1024, "S",
        [(1, 1, ((1024 : ℤ) : ℚ) / 1024), (2, 2, ((2048 : ℤ) : ℚ) / 1024)]⟩ =
      memSum (traceFilter false "foo" (classifyTrace ∅ (cleanupCache 0 []
        [⟨1, "foo", "S", 1, 1024, 1⟩, ⟨2, "foo", "S", 2, 2048, 1⟩]).2
        [⟨1, "foo", "S", 1, 1024, 1⟩, ⟨2, "foo", "S", 2, 2048, 1⟩]))) :=
  ⟨rfl,
    (aggregation_sum_law ∅ ⟨0, []⟩
      [⟨1, "foo", "S", 1, 1024, 1⟩, ⟨2, "foo", "S", 2, 2048, 1⟩] "foo"
      ⟨[1, 2], 0 + 1 + 2, 0 + ((1024 : ℤ) : ℚ) / 1024 + ((2048 : ℤ) : ℚ) / 1024, "S",
        [(1, 1, ((1024 : ℤ) : ℚ) / 1024), (2, 2, ((2048 : ℤ) : ℚ) / 1024)]⟩).2 rfl⟩

/-! ## C5: detail-map sums -/

/-- The detail entry `details[pid] = (cpu, mem)` a decision writes. -/
def detailOf (d : Bool × Sample) : ℤ × ℚ × ℚ :=
  (d.2.pid, d.2.cpu, (d.2.memKb : ℚ) / 1024)

/-- Setting a key absent from a dict appends the new entry. -/
lemma dictSet_append_of_fresh {α β : Type} [DecidableEq α] (k : α) (v : β)
    (d : List (α × β)) (h : ∀ e ∈ d, e.1 ≠ k) : dictSet k v d = d ++ [(k, v)] := by
  induction d with
  | nil => rfl
  | cons e rest ih =>
    obtain ⟨k2, v2⟩ := e
    have hk : k2 ≠ k := h (k2, v2) (by simp)
    simp [dictSet, hk, ih (fun x hx => h x (by simp [hx]))]

/-- The groups dict `g` carries, for every present name, exactly the detail
entries of the category-`cat` decisions of trace `t`, in order. -/
def DetailsMatch (cat : Bool) (t : List (Bool × Sample)) (g : Groups) : Prop :=
  ∀ name : String,
    (dictGet name g = none → traceFilter cat name t = []) ∧
    ∀ info : GroupInfo, dictGet name g = some info →
      info.details = (traceFilter cat name t).map detailOf

/-- Updating the category-`cat` dict with a fresh-pid decision appends exactly
that decision's detail entry. -/
lemma detailsMatch_update (cat : Bool) (t : List (Bool × Sample)) (g : Groups)
    (s : Sample) (h : DetailsMatch cat t g)
    (hfresh : ∀ d ∈ t, d.2.pid ≠ s.pid) :
    DetailsMatch cat (t ++ [(cat, s)])
      (dictSet s.name (newInfo (dictGet s.name g) s) g) := by
  intro name
  constructor
  · intro hnone
    rw [dictGet_dictSet] at hnone
    by_cases he : name = s.name
    · rw [if_pos he] at hnone
      exact absurd hnone (by simp)
    · rw [if_neg he] at hnone
      rw [traceFilter_append, (h name).1 hnone,
        traceFilter_single_name cat cat name s (fun e => he (e.symm))]
      rfl
  · intro info hinfo
    rw [dictGet_dictSet] at hinfo
    by_cases he : name = s.name
    · subst he
      rw [if_pos rfl] at hinfo
      have hinfo2 : newInfo (dictGet s.name g) s = info := by
        injection hinfo
      subst hinfo2
      rw [traceFilter_append, traceFilter_single_hit]
      cases hdg : dictGet s.name g with
      | none =>
        rw [(h s.name).1 hdg]
        simp [newInfo, hdg, detailOf, dictSet]
      | some old =>
        have hdet := (h s.name).2 old hdg
        have hkeys : ∀ e ∈ old.details, e.1 ≠ s.pid := by
          rw [hdet]
          intro e he2
          obtain ⟨d, hd, rfl⟩ := List.mem_map.1 he2
          exact hfresh d (List.mem_of_mem_filter hd)
        simp only [newInfo, hdg, Option.getD_some]
        rw [dictSet_append_of_fresh s.pid _ old.details hkeys, hdet]
        simp [detailOf]
    · rw [if_neg he] at hinfo
      have hdet := (h name).2 info hinfo
      rw [traceFilter_append, traceFilter_single_name cat cat name s (fun e => he (e.symm)),
        List.append_nil]
      exact hdet

/-- A decision of the other category leaves this category's details
untouched. -/
lemma detailsMatch_other (cat c2 : Bool) (hne : c2 ≠ cat)
    (t : List (Bool × Sample)) (g : Groups) (s : Sample)
    (h : DetailsMatch cat t g) : DetailsMatch cat (t ++ [(c2, s)]) g := by
  intro name
  constructor
  · intro hnone
    rw [traceFilter_append, (h name).1 hnone, traceFilter_single_cat cat c2 name s hne]
    rfl
  · intro info hinfo
    rw [traceFilter_append, traceFilter_single_cat cat c2 name s hne, List.append_nil]
    exact (h name).2 info hinfo

/-- Master invariant for details, under pid-freshness of the frame. -/
lemma aggFold_detailsMatch (wp : Finset ℤ) (data : List Sample) :
    ∀ (cache : Cache) (apps background : Groups) (t : List (Bool × Sample)),
      (∀ d ∈ t, ∀ s2 ∈ data, d.2.pid ≠ s2.pid) →
      (data.map Sample.pid).Nodup →
      DetailsMatch true t apps → DetailsMatch false t background →
      DetailsMatch true (t ++ classifyTrace wp cache data)
          (aggFold wp data cache apps background).2.1 ∧
        DetailsMatch false (t ++ classifyTrace wp cache data)
          (aggFold wp data cache apps background).2.2 := by
  induction data with
  | nil =>
    intro cache a b t _ _ ha hb
    simp only [aggFold, classifyTrace, List.append_nil]
    exact ⟨ha, hb⟩
  | cons s rest ih =>
    intro cache a b t hdisj hnodup ha hb
    rw [aggFold_cons, classifyTrace_cons]
    have hfresh : ∀ d ∈ t, d.2.pid ≠ s.pid :=
      fun d hd => hdisj d hd s (by simp)
    have hdisj2 : ∀ (dec : Bool) (d : Bool × Sample), d ∈ t ++ [(dec, s)] →
        ∀ s2 ∈ rest, d.2.pid ≠ s2.pid := by
      intro dec d hd s2 hs2
      rcases List.mem_append.1 hd with hd1 | hd2
      · exact hdisj d hd1 s2 (by simp [hs2])
      · have : d = (dec, s) := by simpa using hd2
        subst this
        simp only [List.map_cons, List.nodup_cons] at hnodup
        intro he
        exact hnodup.1 (he ▸ List.mem_map_of_mem Sample.pid hs2)
    have hnodup2 : (rest.map Sample.pid).Nodup := by
      simp only [List.map_cons, List.nodup_cons] at hnodup
      exact hnodup.2
    have hassoc : ∀ (d : Bool) (L : List (Bool × Sample)),
        t ++ ((d, s) :: L) = (t ++ [(d, s)]) ++ L := by
      intro d L; simp
    cases hc : (classify wp cache s.pid s.name).1 with
    | true =>
      rw [if_pos rfl, hassoc]
      exact ih (classify wp cache s.pid s.name).2 _ b (t ++ [(true, s)])
        (hdisj2 true) hnodup2
        (detailsMatch_update true t a s ha hfresh)
        (detailsMatch_other false true (by decide) t b s hb)
    | false =>
      rw [if_neg Bool.false_ne_true, hassoc]
      exact ih (classify wp cache s.pid s.name).2 a _ (t ++ [(false, s)])
        (hdisj2 false) hnodup2
        (detailsMatch_other true false (by decide) t a s ha)
        (detailsMatch_update false t b s hb hfresh)

/-- Empty dicts carry the empty detail accounting. -/
lemma detailsMatch_nil (cat : Bool) : DetailsMatch cat [] [] := by
  intro name
  constructor
  · intro _; rfl
  · intro info hinfo
    exact absurd hinfo (by simp [dictGet])

/-- C5 (amended).  For every frame whose samples carry pairwise-distinct pids,
every group produced by aggregation has `cpu_percent` equal to the sum of the
cpu values stored in its detail map and `mem_mb` equal to the sum of the mem
values stored in its detail map (a sum, never an average). -/
theorem detail_sum_invariant (wp : Finset ℤ) (st : AggState) (data : List Sample)
    (name : String) (info : GroupInfo)
    (hnodup : (data.map Sample.pid).Nodup) :
    (dictGet name (updateData wp st data).apps = some info →
      info.cpu = (info.details.map (fun e => e.2.1)).sum ∧
      info.mem = (info.details.map (fun e => e.2.2)).sum) ∧
    (dictGet name (updateData wp st data).background = some info →
      info.cpu = (info.details.map (fun e => e.2.1)).sum ∧
      info.mem = (info.details.map (fun e => e.2.2)).sum) := by
  obtain ⟨hg1, hg2⟩ := aggFold_groupsMatch wp data
    (cleanupCache st.counter st.cache data).2 [] [] []
    (groupsMatch_nil true) (groupsMatch_nil false)
  obtain ⟨hd1, hd2⟩ := aggFold_detailsMatch wp data
    (cleanupCache st.counter st.cache data).2 [] [] []
    (by intro d hd; exact absurd hd (List.not_mem_nil d)) hnodup
    (detailsMatch_nil true) (detailsMatch_nil false)
  rw [List.nil_append] at hg1 hg2 hd1 hd2
  constructor
  · intro hget
    obtain ⟨hcpu, hmem⟩ := (hg1 name).2 info hget
    have hdet := (hd1 name).2 info hget
    rw [hcpu, hmem, hdet]
    constructor
    · simp only [cpuSum, List.map_map]
      rfl
    · simp only [memSum, List.map_map]
      rfl
  · intro hget
    obtain ⟨hcpu, hmem⟩ := (hg2 name).2 info hget
    have hdet := (hd2 name).2 info hget
    rw [hcpu, hmem, hdet]
    constructor
    · simp only [cpuSum, List.map_map]
      rfl
    · simp only [memSum, List.map_map]
      rfl

/-- Witness for the amended C5: with distinct pids 1 and 2, the `foo` group's
sums equal the sums over its detail map. -/
theorem detail_sum_invariant_witness :
    (([⟨1, "foo", "S", 1, 1024, 1⟩, ⟨2, "foo", "S", 2, 2048, 1⟩] : List Sample).map
      Sample.pid).Nodup ∧
    dictGet "foo" (updateData ∅ ⟨0, []⟩
        [⟨1, "foo", "S", 1, 1024, 1⟩, ⟨2, "foo", "S", 2, 2048, 1⟩]).background =
      some ⟨[1, 2], 0 + 1 + 2, 0 + ((1024 : ℤ) : ℚ) / 1024 + ((2048 : ℤ) : ℚ) / 1024, "S",
        [(1, 1, ((1024 : ℤ) : ℚ) / 1024), (2, 2, ((2048 : ℤ) : ℚ) / 1024)]⟩ ∧
    ((⟨[1, 2], 0 + 1 + 2, 0 + ((1024 : ℤ) : ℚ) / 1024 + ((2048 : ℤ) : ℚ) / 1024, "S",
        [(1, 1, ((1024 : ℤ) : ℚ) / 1024), (2, 2, ((2048 : ℤ) : ℚ) / 1024)]⟩ : GroupInfo).cpu =
      ((⟨[1, 2], 0 + 1 + 2, 0 + ((1024 : ℤ) : ℚ) / 1024 + ((2048 : ℤ) : ℚ) / 1024, "S",
        [(1, 1, ((1024 : ℤ) : ℚ) / 1024), (2, 2, ((2048 : ℤ) : ℚ) / 1024)]⟩ : GroupInfo).details.map
        (fun e => e.2.1)).sum ∧
     (⟨[1, 2], 0 + 1 + 2, 0 + ((1024 : ℤ) : ℚ) / 1024 + ((2048 : ℤ) : ℚ) / 1024, "S",
        [(1, 1, ((1024 : ℤ) : ℚ) / 1024), (2, 2, ((2048 : ℤ) : ℚ) / 1024)]⟩ : GroupInfo).mem =
      ((⟨[1, 2], 0 + 1 + 2, 0 + ((1024 : ℤ) : ℚ) / 1024 + ((2048 : ℤ) : ℚ) / 1024, "S",
        [(1, 1, ((1024 : ℤ) : ℚ) / 1024), (2, 2, ((2048 : ℤ) : ℚ) / 1024)]⟩ : GroupInfo).details.map
        (fun e => e.2.2)).sum) :=
  ⟨by decide, rfl,
    (detail_sum_invariant ∅ ⟨0, []⟩
      [⟨1, "foo", "S", 1, 1024, 1⟩, ⟨2, "foo", "S", 2, 2048, 1⟩] "foo"
      ⟨[1, 2], 0 + 1 + 2, 0 + ((1024 : ℤ) : ℚ) / 1024 + ((2048 : ℤ) : ℚ) / 1024, "S",
        [(1, 1, ((1024 : ℤ) : ℚ) / 1024), (2, 2, ((2048 : ℤ) : ℚ) / 1024)]⟩
      (by decide)).2 rfl⟩

/-- Counterexample to C5 as stated: when pid 5 occurs twice in one frame (cpu
1 then cpu 0), the group's `cpu_percent` is 1 but its detail map keeps only
the overwritten entry `(5, cpu 0)`, whose sum is 0 — the claim fails for
frames that repeat a pid. -/
theorem detail_sum_counterexample :
    ¬ (∀ name info, dictGet name (updateData ∅ ⟨0, []⟩
        [⟨5, "foo", "S", 1, 1024, 1⟩, ⟨5, "foo", "S", 0, 1024, 1⟩]).background = some info →
        info.cpu = (info.details.map (fun e => e.2.1)).sum ∧
        info.mem = (info.details.map (fun e => e.2.2)).sum) := by
  intro h
  have h2 := (h "foo" ⟨[5, 5], 0 + 1 + 0, 0 + ((1024 : ℤ) : ℚ) / 1024 + ((1024 : ℤ) : ℚ) / 1024,
      "S", [(5, 0, ((1024 : ℤ) : ℚ) / 1024)]⟩ rfl).1
  simp at h2

/-! ## C2: reconciliation in `_update_rows` -/

/-- A row key: `('app', name)` or `('bg', name)`, as built by
`_update_rows`. -/
abbrev Key := String × String

/-- `current_keys`: the key set of this cycle's `apps` and `background`
dicts. -/
def currentKeysOf (apps background : Groups) : Finset Key :=
  (apps.map (fun e => (("app" : String), e.1))).toFinset ∪
    (background.map (fun e => (("bg" : String), e.1))).toFinset

/-- What one `_update_rows` call computes: the three diff sets and the key set
of `self.rows` after the removals and additions have been applied. -/
structure RowsDiff where
  toAdd : Finset Key
  toRemove : Finset Key
  toUpdate : Finset Key
  newRows : Finset Key

/-- `_update_rows(apps, background)` at the level of key sets: `existing_keys`
is the remembered `self.rows` key set, and rows are deleted for `to_remove`,
updated in place for `to_update` and inserted for `to_add`. -/
def updateRows (rows : Finset Key) (apps background : Groups) : RowsDiff :=
  let currentKeys := currentKeysOf apps background
  let toAdd := currentKeys \ rows
  let toRemove := rows \ currentKeys
  let toUpdate := currentKeys ∩ rows
  ⟨toAdd, toRemove, toUpdate, (rows \ toRemove) ∪ toAdd⟩

/-- C2.  The reconciler is a pure set difference: `added = K − P`,
`removed = P − K`, `updated = K ∩ P` for previous keys `P` and new key set
`K`; and a second call with the identical new state (after the first call has
updated the remembered keys) yields empty `added` and `removed` and `updated`
equal to all current keys. -/
theorem reconciliation_set_difference (rows : Finset Key) (apps background : Groups) :
    (updateRows rows apps background).toAdd = currentKeysOf apps background \ rows ∧
    (updateRows rows apps background).toRemove = rows \ currentKeysOf apps background ∧
    (updateRows rows apps background).toUpdate = currentKeysOf apps background ∩ rows ∧
    (updateRows (updateRows rows apps background).newRows apps background).toAdd = ∅ ∧
    (updateRows (updateRows rows apps background).newRows apps background).toRemove = ∅ ∧
    (updateRows (updateRows rows apps background).newRows apps background).toUpdate =
      currentKeysOf apps background := by
  have hnew : (updateRows rows apps background).newRows = currentKeysOf apps background := by
    show (rows \ (rows \ currentKeysOf apps background)) ∪
        (currentKeysOf apps background \ rows) = currentKeysOf apps background
    ext k
    simp only [Finset.mem_union, Finset.mem_sdiff]
    tauto
  refine ⟨rfl, rfl, rfl, ?_, ?_, ?_⟩
  · rw [hnew]
    show currentKeysOf apps background \ currentKeysOf apps background = ∅
    exact Finset.sdiff_self _
  · rw [hnew]
    show currentKeysOf apps background \ currentKeysOf apps background = ∅
    exact Finset.sdiff_self _
  · rw [hnew]
    show currentKeysOf apps background ∩ currentKeysOf apps background =
      currentKeysOf apps background
    exact Finset.inter_self _

/-! ## C9: resolver failure behaviour (`update_window_pids`) -/

/-- `_fetch_pids` of `update_window_pids`, with the two external strategies as
oracles: `wmctrl` is `some` of the pids parsed from a successful
`wmctrl -lp` run (the source keeps only `pid > 0`), `none` for any failure
(missing tool, timeout, non-zero exit); `xprop` likewise is `some` of the pids
parsed from the per-window `_NET_WM_PID` queries of a successful fallback,
`none` for total failure.  Every failure path in the source is caught by a
bare `except`, so the function is total — it never raises — and on the
fallback path it always ends with `self.window_pids = pids`, so a refresh in
which both strategies fail publishes the empty set, regardless of the
previously published snapshot `prev`. -/
def updateWindowPids (prev : Finset ℤ) (wmctrl xprop : Option (List ℤ)) : Finset ℤ :=
  match wmctrl with
  | some pids => (pids.filter (fun p => 0 < p)).toFinset
  | none =>
    match xprop with
    | some pids => pids.toFinset
    | none => ∅

/-- C9.  A refresh in which both window-query strategies fail publishes the
empty set as the new `WindowPidSet`, for every previously published snapshot —
the previous snapshot is overwritten, not retained (and, the embedding being
total, no exception escapes). -/
theorem resolver_total_failure_publishes_empty (prev : Finset ℤ) :
    updateWindowPids prev none none = ∅ := rfl
